import Mathlib

/-!
Shallow embedding of the peer-to-peer networking core (src/network/network.go)
of the Sia repository: length-prefixed framing (ReadPrefix / WritePrefix),
the address book and its gossip handlers (sharePeers, addPeer, requestPeers),
RPC registration (RegisterHandler / RegisterRPC), RandomPeer, and Bootstrap.
Byte streams are modelled as lists of natural numbers (one per byte); a
connection is the list of bytes that will arrive on it before end-of-stream.
-/

/-- A NetAddress contains the information needed to contact a peer over TCP
(network.go, lines 20-23): a host string and a port. -/
structure NetAddress where
  Host : String
  Port : Nat
deriving DecidableEq, Repr

/-- The maximum message length, 1 << 16 (network.go, line 16). -/
def maxMsgLen : Nat := 65536

/-- Modelled from the spec: the encoding package (encoding.EncUint64) is an
external collaborator not under src/; the spec fixes only a 4-byte unsigned
length in a fixed byte order. Little-endian base-256 digits of n, 8 bytes. -/
def EncUint64 (n : Nat) : List Nat :=
  [n % 256, n / 256 % 256, n / 65536 % 256, n / 16777216 % 256,
   n / 4294967296 % 256, n / 1099511627776 % 256,
   n / 281474976710656 % 256, n / 72057594037927936 % 256]

/-- Modelled from the spec: the encoding package (encoding.DecUint64), inverse
of EncUint64 on the bytes it is given: little-endian base-256 value. -/
def DecUint64 (bs : List Nat) : Nat :=
  bs.foldr (fun b acc => b + 256 * acc) 0

/-- WritePrefix (network.go, lines 66-69): the bytes placed on the stream,
the first 4 bytes of EncUint64 of the payload length followed by the payload.
The Go function performs no size check on the payload. -/
def WritePrefix (data : List Nat) : List Nat :=
  (EncUint64 data.length).take 4 ++ data

/-- The read loop of ReadPrefix (network.go, lines 52-59). Each iteration is
one call of data.ReadFrom(conn): bytes.Buffer.ReadFrom reads from the
connection until end-of-stream, returns the count read, and reports
end-of-stream as success (nil error), so one call consumes the whole
remaining stream and every later call returns 0 bytes with nil error.
The fuel argument counts loop iterations; none models a loop that never
exits. After the loop, data.Len() is compared with msgLen. -/
def readLoop (msgLen : Nat) : Nat → List Nat → List Nat → Nat →
    Option (Except String (List Nat))
  | fuel, conn, data, total =>
    if total < msgLen then
      match fuel with
      | 0 => none
      | f + 1 => readLoop msgLen f [] (data ++ conn) (total + conn.length)
    else if data.length = msgLen then some (Except.ok data)
    else some (Except.error "message length mismatch")

/-- ReadPrefix (network.go, lines 42-64): read a 4-byte length prefix, reject
lengths above maxMsgLen, then run the read loop. The connection is the list
of bytes that will arrive before end-of-stream. -/
def ReadPrefix (fuel : Nat) (conn : List Nat) : Option (Except String (List Nat)) :=
  if conn.length < 4 then some (Except.error "could not read length prefix")
  else
    let msgLen := DecUint64 (conn.take 4)
    if msgLen > maxMsgLen then some (Except.error "message too long")
    else readLoop msgLen fuel (conn.drop 4) [] 0

/-- Modelled from the spec: the serialization codec (encoding.Marshal for a
NetAddress) is an external collaborator not under src/; the spec gives only
the contract unmarshal(marshal(v)) = v and treats the byte form as opaque.
We use a concrete injective encoding: two little-endian port bytes followed
by the host's characters. -/
def marshalNetAddress (a : NetAddress) : List Nat :=
  a.Port % 256 :: a.Port / 256 :: (a.Host.toList.map Char.toNat)

/-- Modelled from the spec: the serialization codec (encoding.Unmarshal into a
NetAddress), inverse of marshalNetAddress; too few bytes is a decode error. -/
def unmarshalNetAddress (bs : List Nat) : Except String NetAddress :=
  match bs with
  | b0 :: b1 :: rest => Except.ok ⟨String.mk (rest.map Char.ofNat), b0 + 256 * b1⟩
  | _ => Except.error "could not unmarshal NetAddress"

/-- Modelled from the spec: the entry bytes of encoding.Marshal of a
[]NetAddress; each entry is written with a one-byte length followed by its
bytes. -/
def marshalAddrEntries : List NetAddress → List Nat
  | [] => []
  | a :: rest =>
    (marshalNetAddress a).length :: (marshalNetAddress a ++ marshalAddrEntries rest)

/-- Modelled from the spec: encoding.Marshal of a []NetAddress, opaque to the
core; an entry count followed by the length-prefixed entries. -/
def marshalAddrList (l : List NetAddress) : List Nat :=
  l.length :: marshalAddrEntries l

/-- Modelled from the spec: decoding of the length-prefixed entries of a
[]NetAddress payload, recursing on the announced entry count; a truncated
entry is a decode error. -/
def unmarshalAddrEntries : Nat → List Nat → Except String (List NetAddress)
  | 0, _ => Except.ok []
  | _ + 1, [] => Except.error "could not unmarshal NetAddress list"
  | n + 1, len :: rest =>
    if len ≤ rest.length then
      match unmarshalNetAddress (rest.take len) with
      | Except.error e => Except.error e
      | Except.ok a =>
        match unmarshalAddrEntries n (rest.drop len) with
        | Except.error e => Except.error e
        | Except.ok as => Except.ok (a :: as)
    else Except.error "could not unmarshal NetAddress list"

/-- Modelled from the spec: encoding.Unmarshal into a []NetAddress, inverse
of marshalAddrList. -/
def unmarshalAddrList : List Nat → Except String (List NetAddress)
  | [] => Except.error "could not unmarshal NetAddress list"
  | n :: rest => unmarshalAddrEntries n rest

/-- The address book map[NetAddress]struct{} (network.go, line 94), modelled
as its key list in iteration order, without duplicates. Inserting an address
already present leaves the book unchanged; a new address is appended. -/
def insertAddr (book : List NetAddress) (addr : NetAddress) : List NetAddress :=
  if addr ∈ book then book else book ++ [addr]

/-- The selection loop of sharePeers (network.go, lines 224-231): walk the
book in iteration order, taking addresses while num is positive. -/
def sharePeersSel : Nat → List NetAddress → List NetAddress
  | _, [] => []
  | 0, _ :: _ => []
  | num + 1, addr :: rest => addr :: sharePeersSel num rest

/-- sharePeers (network.go, lines 219-234): a payload of length other than 1
is an error and nothing is written; otherwise the reply written on the
connection is the framed marshalled selection. The ok value is the list of
bytes written. -/
def sharePeers (book : List NetAddress) (msgData : List Nat) :
    Except String (List Nat) :=
  match msgData with
  | [num] => Except.ok (WritePrefix (marshalAddrList (sharePeersSel num book)))
  | _ => Except.error "invalid number of peers"

/-- addPeer (network.go, lines 237-244): decode the announced address and
insert it into the book unconditionally. The ok value is the new book. -/
def addPeer (book : List NetAddress) (data : List Nat) :
    Except String (List NetAddress) :=
  match unmarshalNetAddress data with
  | Except.error e => Except.error e
  | Except.ok addr => Except.ok (insertAddr book addr)

/-- RandomPeer (network.go, lines 100-106): the named return value rand
starts at the zero value NetAddress pair of empty host and port 0, and the
loop overwrites it with the first element of map iteration, if any. -/
def RandomPeer (book : List NetAddress) : NetAddress :=
  match book with
  | [] => ⟨"", 0⟩
  | addr :: _ => addr

/-- The insertion loop of requestPeers (network.go, lines 295-299): each
returned address is inserted only when it differs from the node's own
address and the Ping probe (an oracle here) succeeds. -/
def requestPeersAdd (myAddr : NetAddress) (ping : NetAddress → Bool) :
    List NetAddress → List NetAddress → List NetAddress
  | book, [] => book
  | book, addr :: rest =>
    if addr ≠ myAddr ∧ ping addr = true then
      requestPeersAdd myAddr ping (insertAddr book addr) rest
    else
      requestPeersAdd myAddr ping book rest

/-- requestPeers (network.go, lines 280-301): read the framed reply from the
connection, decode the address list, and run the insertion loop. none models
the read loop never returning; an error leaves the book unchanged. -/
def requestPeers (myAddr : NetAddress) (ping : NetAddress → Bool)
    (book : List NetAddress) (fuel : Nat) (conn : List Nat) :
    Option (List NetAddress × Option String) :=
  match ReadPrefix fuel conn with
  | none => none
  | some (Except.error e) => some (book, some e)
  | some (Except.ok data) =>
    match unmarshalAddrList data with
    | Except.error e => some (book, some e)
    | Except.ok addrs => some (requestPeersAdd myAddr ping book addrs, none)

/-- A message handler as stored in handlerMap (network.go, line 95): given
the payload bytes it may return an error (the connection argument is left
out of the model; built-in handlers act on the book, modelled separately). -/
def Handler : Type := List Nat → Option String

/-- The handler table map[byte]func (network.go, line 95), as a function from
message-type tags to an optional handler. -/
def HandlerMap : Type := Nat → Option Handler

/-- The reflection-visible shape and behavior of a Go value passed to
RegisterRPC as interface argument fn: its reflect kind and signature counts,
whether its one result is the error interface, the decode of a payload into
a fresh value of its input type (encoding.Unmarshal), and the call of the
underlying function on a decoded value. -/
structure RPCFunc (α : Type) where
  kindIsFunc : Bool
  numIn : Nat
  numOut : Nat
  out0IsError : Bool
  decode : List Nat → Except String α
  apply : α → Option String

/-- The closure sfn built by RegisterRPC (network.go, lines 134-143): decode
the payload into a fresh value; a decode failure is returned as the handler
error; otherwise the wrapped function is called on the decoded value. -/
def mkSimpleHandler {α : Type} (fn : RPCFunc α) : Handler :=
  fun b =>
    match fn.decode b with
    | Except.error e => some e
    | Except.ok v => fn.apply v

/-- RegisterHandler (network.go, lines 117-119): unconditional overwrite of
the binding for tag t. -/
def RegisterHandler (m : HandlerMap) (t : Nat) (h : Handler) : HandlerMap :=
  fun u => if u = t then some h else m u

/-- The signature test of RegisterRPC (network.go, lines 128-129): fn must be
a func with exactly one input and exactly one output of the error interface
type. -/
def rpcSigWrong {α : Type} (fn : RPCFunc α) : Bool :=
  !fn.kindIsFunc || fn.numIn != 1 || fn.numOut != 1 || !fn.out0IsError

/-- RegisterRPC (network.go, lines 125-147): a wrong signature is reported as
an error at registration time and nothing is registered; otherwise sfn is
registered for the tag and the result error is nil (none). -/
def RegisterRPC {α : Type} (m : HandlerMap) (t : Nat) (fn : RPCFunc α) :
    HandlerMap × Option String :=
  if rpcSigWrong fn then
    (m, some "registered function has wrong type signature")
  else
    (RegisterHandler m t (mkSimpleHandler fn), none)

/-- The mutable state of a TCPServer (network.go, lines 91-96) that Bootstrap
touches: the node's own address and the address book. -/
structure ServerState where
  myAddr : NetAddress
  addressbook : List NetAddress

/-- The network environment Bootstrap runs against, as oracles: whether a
Ping probe of an address succeeds (network.go, lines 249-256), the host
learned from a successful hostname exchange with a peer (learnHostname,
lines 259-276; none when the dial, the read or the parse fails), and the
decoded peer-share reply obtained from a peer by requestPeers (none when the
dial, the read or the decode fails). Each oracle abstracts one terminating
call on one peer; every failure is ignored by the caller. -/
structure BootstrapEnv where
  ping : NetAddress → Bool
  hostnameReply : NetAddress → Option String
  peerShareReply : NetAddress → Option (List NetAddress)

/-- The seeding loop of Bootstrap (network.go, lines 307-311): every
reachable seed is inserted into the book, with no check against the node's
own address. -/
def bootstrapSeed (ping : NetAddress → Bool) :
    List NetAddress → List NetAddress → List NetAddress
  | book, [] => book
  | book, addr :: rest =>
    bootstrapSeed ping (if ping addr then insertAddr book addr else book) rest

/-- The hostname loop of Bootstrap (network.go, lines 314-318): walk the book
and stop at the first peer whose hostname exchange succeeds, setting the own
address host field from the reply. -/
def learnHostnameLoop (reply : NetAddress → Option String) (myAddr : NetAddress) :
    List NetAddress → NetAddress
  | [] => myAddr
  | addr :: rest =>
    match reply addr with
    | some host => { myAddr with Host := host }
    | none => learnHostnameLoop reply myAddr rest

/-- Broadcast of requestPeers (network.go, line 322): every member of the
book at broadcast start is dialled; a successful exchange runs the insertion
loop of requestPeers on the decoded reply, a failed one is ignored. -/
def broadcastRequestPeers (myAddr : NetAddress) (ping : NetAddress → Bool)
    (reply : NetAddress → Option (List NetAddress))
    (book : List NetAddress) : List NetAddress :=
  book.foldl
    (fun bk peer =>
      match reply peer with
      | none => bk
      | some addrs => requestPeersAdd myAddr ping bk addrs)
    book

/-- Bootstrap (network.go, lines 305-328): seed the book from the reachable
seeds, learn the own hostname from the first responsive book member,
broadcast a peer-share request to every book member, then broadcast a
self-announce (which does not change local state). The named return err is
never assigned anywhere in the body, so the error component is none on every
path. -/
def Bootstrap (env : BootstrapEnv) (st : ServerState) (seeds : List NetAddress) :
    ServerState × Option String :=
  let book1 := bootstrapSeed env.ping st.addressbook seeds
  let myAddr1 := learnHostnameLoop env.hostnameReply st.myAddr book1
  let book2 := broadcastRequestPeers myAddr1 env.ping env.peerShareReply book1
  (⟨myAddr1, book2⟩, none)

/-- Once the connection is exhausted, every further ReadFrom call returns 0
bytes with nil error, so a read loop still short of msgLen never exits. -/
theorem readLoop_empty_none (msgLen : Nat) (fuel : Nat) :
    ∀ (data : List Nat) (total : Nat), total < msgLen →
      readLoop msgLen fuel [] data total = none := by
  induction fuel with
  | zero =>
    intro data total h
    simp [readLoop, h]
  | succ f ih =>
    intro data total h
    rw [readLoop]
    simp only [h, if_pos, List.append_nil, List.length_nil, Nat.add_zero]
    exact ih data total h

/-- Once total has reached msgLen the loop exits and the buffer length is
compared with msgLen, whatever fuel remains. -/
theorem readLoop_ge (msgLen fuel : Nat) (conn data : List Nat) (total : Nat)
    (h : ¬ total < msgLen) :
    readLoop msgLen fuel conn data total =
      if data.length = msgLen then some (Except.ok data)
      else some (Except.error "message length mismatch") := by
  cases fuel <;> (rw [readLoop]; simp [h])

/-- A connection holding exactly msgLen bytes is read whole by the first
ReadFrom call and the loop then exits with those bytes. -/
theorem readLoop_exact (msgLen : Nat) (fuel : Nat) (rest : List Nat)
    (hlen : rest.length = msgLen) (hfuel : 1 ≤ fuel) :
    readLoop msgLen fuel rest [] 0 = some (Except.ok rest) := by
  by_cases h0 : msgLen = 0
  · subst h0
    have hnil : rest = [] := List.eq_nil_of_length_eq_zero hlen
    subst hnil
    cases fuel <;> rfl
  · have hpos : 0 < msgLen := Nat.pos_of_ne_zero h0
    cases fuel with
    | zero => omega
    | succ f =>
      rw [readLoop]
      simp only [hpos, if_pos, List.nil_append, List.length_nil, Nat.zero_add]
      rw [readLoop_ge msgLen f [] rest rest.length (by omega)]
      simp [hlen]

/-- The 4-byte little-endian length prefix decodes to the encoded value for
every value below 2 to the 32. -/
theorem DecUint64_EncUint64_take (n : Nat) (h : n < 4294967296) :
    DecUint64 ((EncUint64 n).take 4) = n := by
  show n % 256 + 256 * (n / 256 % 256 + 256 * (n / 65536 % 256 +
    256 * (n / 16777216 % 256 + 256 * 0))) = n
  omega

/-- The first 4 bytes WritePrefix puts on the stream are the length bytes. -/
theorem WritePrefix_take_four (data : List Nat) :
    (WritePrefix data).take 4 = (EncUint64 data.length).take 4 := by
  apply List.take_left'
  rfl

/-- After the 4 length bytes, WritePrefix puts exactly the payload on the
stream. -/
theorem WritePrefix_drop_four (data : List Nat) :
    (WritePrefix data).drop 4 = data := by
  apply List.drop_left'
  rfl

/-- WritePrefix writes 4 length bytes plus the whole payload, whatever the
payload size. -/
theorem WritePrefix_length (data : List Nat) :
    (WritePrefix data).length = 4 + data.length := by
  simp [WritePrefix, EncUint64]
  omega

/-- C1 (code bug): on the stream 2,0,0,0,42 — length prefix L = 2, one
payload byte delivered, then end-of-stream — ReadPrefix never returns, for
any number of read-loop iterations, instead of failing with a truncation
error: bytes.Buffer.ReadFrom reports end-of-stream as success, so the loop
keeps reading 0 bytes forever. And on the stream 1,0,0,0,9,9 — a complete
one-byte message followed by further bytes — the read-until-end-of-stream
primitive overshoots and ReadPrefix rejects a well-formed message with a
length-mismatch error, showing the loop reads to end-of-stream rather than
exactly L bytes. -/
theorem ReadPrefix_truncation_behavior :
    (∀ fuel : Nat, ReadPrefix fuel [2, 0, 0, 0, 42] = none) ∧
    ReadPrefix 2 [1, 0, 0, 0, 9, 9] =
      some (Except.error "message length mismatch") := by
  constructor
  · intro fuel
    have h1 : ReadPrefix fuel [2, 0, 0, 0, 42] = readLoop 2 fuel [42] [] 0 := rfl
    rw [h1]
    cases fuel with
    | zero => rfl
    | succ f =>
      have h2 : readLoop 2 (f + 1) [42] [] 0 = readLoop 2 f [] [42] 1 := rfl
      rw [h2]
      exact readLoop_empty_none 2 f [42] 1 (by omega)
  · rfl

/-- C4 counterexample: a 65537-byte payload is not rejected by the writer:
WritePrefix performs no size check and places the framed oversize message on
the stream, 4 length bytes followed by all 65537 payload bytes. -/
theorem WritePrefix_oversize_is_written :
    (WritePrefix (List.replicate 65537 0)).length = 65541 ∧
    (WritePrefix (List.replicate 65537 0)).drop 4 = List.replicate 65537 0 := by
  constructor
  · rw [WritePrefix_length, List.length_replicate]
  · exact WritePrefix_drop_four _

/-- C4 amended: reading back what writing produced returns the payload
unchanged for every payload of at most 65536 bytes (so in particular for
sizes 0, 1 and 65536); an oversize payload is written in full by WritePrefix
(which has no size check) and is rejected with the oversize error by
ReadPrefix, never accepted as a valid message. -/
theorem WritePrefix_ReadPrefix_roundtrip (payload : List Nat) (fuel : Nat) :
    (payload.length ≤ maxMsgLen → 1 ≤ fuel →
      ReadPrefix fuel (WritePrefix payload) = some (Except.ok payload)) ∧
    (maxMsgLen < payload.length → payload.length < 4294967296 →
      ReadPrefix fuel (WritePrefix payload) =
        some (Except.error "message too long")) := by
  have hlen : ¬ (WritePrefix payload).length < 4 := by
    rw [WritePrefix_length]
    omega
  constructor
  · intro hmax hfuel
    have hdec : DecUint64 ((WritePrefix payload).take 4) = payload.length := by
      rw [WritePrefix_take_four]
      exact DecUint64_EncUint64_take payload.length (by
        simp [maxMsgLen] at hmax
        omega)
    rw [ReadPrefix]
    simp only [hlen, if_neg, hdec, WritePrefix_drop_four, not_false_eq_true]
    have hmax2 : ¬ payload.length > maxMsgLen := by omega
    simp only [hmax2, if_neg, not_false_eq_true]
    exact readLoop_exact payload.length fuel payload rfl hfuel
  · intro hmax h32
    have hdec : DecUint64 ((WritePrefix payload).take 4) = payload.length := by
      rw [WritePrefix_take_four]
      exact DecUint64_EncUint64_take payload.length h32
    rw [ReadPrefix]
    simp only [hlen, if_neg, hdec, not_false_eq_true]
    simp only [gt_iff_lt, hmax, if_pos]

/-- The modelled address codec satisfies the contract the spec states for
the external serializer: decoding what encoding produced gives the address
back. -/
theorem unmarshalNetAddress_marshal (a : NetAddress) :
    unmarshalNetAddress (marshalNetAddress a) = Except.ok a := by
  cases a with
  | mk host port =>
    have hc : (Char.ofNat ∘ Char.toNat) = id := funext fun c => Char.ofNat_toNat c
    have hs : String.mk host.toList = host := by cases host; rfl
    simp only [marshalNetAddress, unmarshalNetAddress, List.map_map, hc,
      List.map_id, hs, Except.ok.injEq, NetAddress.mk.injEq]
    exact ⟨trivial, by omega⟩

/-- Decoding the length-prefixed entry bytes of a marshalled address list
gives the list back. -/
theorem unmarshalAddrEntries_marshal (l : List NetAddress) :
    unmarshalAddrEntries l.length (marshalAddrEntries l) = Except.ok l := by
  induction l with
  | nil => rfl
  | cons a rest ih =>
    show unmarshalAddrEntries (rest.length + 1)
      ((marshalNetAddress a).length ::
        (marshalNetAddress a ++ marshalAddrEntries rest)) = Except.ok (a :: rest)
    rw [unmarshalAddrEntries]
    have hle : (marshalNetAddress a).length ≤
        (marshalNetAddress a ++ marshalAddrEntries rest).length := by
      simp
    rw [if_pos hle]
    rw [List.take_left' rfl, List.drop_left' rfl]
    rw [unmarshalNetAddress_marshal, ih]

/-- The modelled address-list codec satisfies the round-trip contract the
spec states for the external serializer. -/
theorem unmarshalAddrList_marshal (l : List NetAddress) :
    unmarshalAddrList (marshalAddrList l) = Except.ok l :=
  unmarshalAddrEntries_marshal l

/-- Membership in the book after a map insert: the inserted address and the
previous members, nothing else. -/
theorem mem_insertAddr (book : List NetAddress) (b a : NetAddress) :
    a ∈ insertAddr book b ↔ a ∈ book ∨ a = b := by
  unfold insertAddr
  by_cases hb : b ∈ book
  · simp only [hb, if_pos]
    constructor
    · exact Or.inl
    · rintro (h | rfl)
      · exact h
      · exact hb
  · simp [hb]

/-- The selection loop of sharePeers takes the first num elements of the
book's iteration order. -/
theorem sharePeersSel_eq_take (num : Nat) (l : List NetAddress) :
    sharePeersSel num l = l.take num := by
  induction l generalizing num with
  | nil => cases num <;> rfl
  | cons a rest ih =>
    cases num with
    | zero => rfl
    | succ n =>
      show a :: sharePeersSel n rest = a :: rest.take n
      rw [ih n]

/-- Membership in the book after the insertion loop of requestPeers: the
previous members, plus exactly those reply addresses that differ from the
node's own address and pass the Ping probe. -/
theorem mem_requestPeersAdd (myAddr : NetAddress) (ping : NetAddress → Bool)
    (book : List NetAddress) (addrs : List NetAddress) (a : NetAddress) :
    a ∈ requestPeersAdd myAddr ping book addrs ↔
      a ∈ book ∨ (a ∈ addrs ∧ a ≠ myAddr ∧ ping a = true) := by
  induction addrs generalizing book with
  | nil => simp [requestPeersAdd]
  | cons x rest ih =>
    rw [requestPeersAdd]
    by_cases hc : x ≠ myAddr ∧ ping x = true
    · rw [if_pos hc, ih, mem_insertAddr]
      simp only [List.mem_cons]
      by_cases hax : a = x
      · subst hax
        obtain ⟨hxm, hxp⟩ := hc
        tauto
      · tauto
    · rw [if_neg hc, ih]
      simp only [List.mem_cons]
      by_cases hax : a = x
      · subst hax
        tauto
      · tauto

/-- C2 counterexample: the peer-announce handler addPeer does not preserve
the invariant. A node whose own address is host "" port 4001 starts with an
empty book (the invariant holds); a peer announcing that very address makes
addPeer insert it, and the book then contains the node's own address. -/
theorem addPeer_inserts_own_address :
    addPeer [] (marshalNetAddress ⟨"", 4001⟩) =
      Except.ok [(⟨"", 4001⟩ : NetAddress)] := rfl

/-- C2 amended: only the peer-discovery step preserves the invariant. The
insertion loop of requestPeers checks every reply address against the node's
own address, so the own address is in the book after the loop exactly when
it already was before; the peer-announce handler addPeer performs no such
check and inserts whatever address decodes from the announcement, the
node's own address included. -/
theorem own_address_invariant_per_operation (myAddr : NetAddress)
    (ping : NetAddress → Bool) (book : List NetAddress)
    (addrs : List NetAddress) :
    (myAddr ∈ requestPeersAdd myAddr ping book addrs ↔ myAddr ∈ book) ∧
    (∀ data a, unmarshalNetAddress data = Except.ok a →
      addPeer book data = Except.ok (insertAddr book a)) := by
  constructor
  · rw [mem_requestPeersAdd]
    simp
  · intro data a h
    simp [addPeer, h]

/-- C3: with a book of N distinct members and a request payload of exactly
one byte holding count C, the sharePeers reply is the framed marshalled
selection; the selection has exactly min(N, C) entries, is duplicate-free,
every entry is a member of the book at request time, and the reply payload
decodes back to exactly that selection. A payload whose length is not 1 is
rejected as an error and no reply bytes are produced. -/
theorem sharePeers_reply (book : List NetAddress) (msgData : List Nat) :
    (msgData.length ≠ 1 →
      sharePeers book msgData = Except.error "invalid number of peers") ∧
    (∀ c, msgData = [c] →
      sharePeers book msgData =
        Except.ok (WritePrefix (marshalAddrList (sharePeersSel c book))) ∧
      (sharePeersSel c book).length = min book.length c ∧
      (book.Nodup → (sharePeersSel c book).Nodup) ∧
      (∀ a ∈ sharePeersSel c book, a ∈ book) ∧
      unmarshalAddrList (marshalAddrList (sharePeersSel c book)) =
        Except.ok (sharePeersSel c book)) := by
  constructor
  · intro h
    match msgData, h with
    | [], _ => rfl
    | _ :: _ :: _, _ => rfl
    | [x], h => exact absurd rfl h
  · rintro c rfl
    refine ⟨rfl, ?_, ?_, ?_, unmarshalAddrList_marshal _⟩
    · rw [sharePeersSel_eq_take, List.length_take]
      omega
    · intro hnd
      rw [sharePeersSel_eq_take]
      exact hnd.sublist (List.take_sublist c book)
    · intro a ha
      rw [sharePeersSel_eq_take] at ha
      exact List.take_subset c book ha

/-- C6: for every address in a decoded peer-share reply, the insertion loop
of requestPeers inserts it exactly when it is not the node's own address and
the Ping probe succeeds; addresses failing either condition change nothing,
and requestPeers runs that loop on the decoded reply whenever the framed
read and the decode succeed. -/
theorem requestPeers_insert_iff (myAddr : NetAddress) (ping : NetAddress → Bool)
    (book : List NetAddress) (addrs : List NetAddress) (a : NetAddress) :
    (a ∈ requestPeersAdd myAddr ping book addrs ↔
      a ∈ book ∨ (a ∈ addrs ∧ a ≠ myAddr ∧ ping a = true)) ∧
    ((a ∉ addrs ∨ a = myAddr ∨ ping a = false) → a ∉ book →
      a ∉ requestPeersAdd myAddr ping book addrs) ∧
    (∀ fuel conn data, ReadPrefix fuel conn = some (Except.ok data) →
      unmarshalAddrList data = Except.ok addrs →
      requestPeers myAddr ping book fuel conn =
        some (requestPeersAdd myAddr ping book addrs, none)) := by
  refine ⟨mem_requestPeersAdd myAddr ping book addrs a, ?_, ?_⟩
  · intro hfail hbook
    rw [mem_requestPeersAdd]
    rintro (h | ⟨hmem, hne, hping⟩)
    · exact hbook h
    · rcases hfail with h | h | h
      · exact h hmem
      · exact hne h
      · rw [h] at hping
        cases hping
  · intro fuel conn data h1 h2
    simp only [requestPeers, h1, h2]

/-- C5: a function value whose reflected shape fails the signature test (not
a func, arity other than one input, or output other than exactly one error)
makes RegisterRPC return the registration error immediately and register
nothing; a value passing the test is registered with its wrapper as a map
entry and the returned error is nil; and the wrapper reports a payload that
fails to decode as the handler's error, with the same result whatever the
wrapped application function is — it is never invoked. -/
theorem RegisterRPC_validation {α : Type} (m : HandlerMap) (t : Nat)
    (fn : RPCFunc α) :
    (rpcSigWrong fn = true →
      RegisterRPC m t fn =
        (m, some "registered function has wrong type signature")) ∧
    (rpcSigWrong fn = false →
      (RegisterRPC m t fn).2 = none ∧
      (RegisterRPC m t fn).1 t = some (mkSimpleHandler fn)) ∧
    (∀ b e, fn.decode b = Except.error e →
      ∀ g : α → Option String,
        mkSimpleHandler { fn with apply := g } b = some e) := by
  refine ⟨?_, ?_, ?_⟩
  · intro h
    simp [RegisterRPC, h]
  · intro h
    simp [RegisterRPC, h, RegisterHandler]
  · intro b e h g
    simp [mkSimpleHandler, h]

/-- C7 (code bug): on an empty address book, RandomPeer returns the zero
value NetAddress — empty host, port 0 — rather than an explicit no-peer
outcome; on a non-empty book it returns whichever element map iteration
yields first, not a peer chosen by an explicit uniform-random index. -/
theorem RandomPeer_empty_zero_value :
    RandomPeer [] = (⟨"", 0⟩ : NetAddress) ∧
    RandomPeer [⟨"a", 1⟩, ⟨"b", 2⟩] = (⟨"a", 1⟩ : NetAddress) :=
  ⟨rfl, rfl⟩

/-- C9: the named return err of Bootstrap is never assigned on any path —
seeds that fail the Ping probe, peers with no hostname reply and peers whose
peer-share exchange fails are all skipped silently — so Bootstrap returns a
nil error for every environment, starting state and seed list. -/
theorem Bootstrap_error_always_none (env : BootstrapEnv) (st : ServerState)
    (seeds : List NetAddress) :
    (Bootstrap env st seeds).2 = none := rfl

/-- C10: when RegisterRPC rejects a function for its signature, the handler
table is returned untouched: every tag, the given one included, keeps
exactly the binding it had before. -/
theorem RegisterRPC_reject_leaves_table {α : Type} (m : HandlerMap) (t : Nat)
    (fn : RPCFunc α) (h : rpcSigWrong fn = true) :
    (RegisterRPC m t fn).1 = m ∧ (RegisterRPC m t fn).1 t = m t := by
  rw [RegisterRPC, if_pos h]
  exact ⟨rfl, rfl⟩

/-- A handler table with no binding, for concrete instantiations. -/
def emptyHandlerMap : HandlerMap := fun _ => none

/-- A concrete wrongly-shaped registration argument: a func of two inputs. -/
def badRPCFunc : RPCFunc Nat where
  kindIsFunc := true
  numIn := 2
  numOut := 1
  out0IsError := true
  decode := fun _ => Except.error "no decode"
  apply := fun _ => none

/-- C10 witness: registering the concrete two-input function under tag 65
('A') on the empty table is rejected and leaves the table as it was. -/
theorem RegisterRPC_reject_leaves_table_witness :
    (RegisterRPC emptyHandlerMap 65 badRPCFunc).1 = emptyHandlerMap ∧
    (RegisterRPC emptyHandlerMap 65 badRPCFunc).1 65 = emptyHandlerMap 65 :=
  RegisterRPC_reject_leaves_table emptyHandlerMap 65 badRPCFunc rfl
